import Mathlib

/-!
Verification of the cost-strategy engine of the `custom_teleport` repository.

The Python sources under `src/custom_teleport/cost_strategy/` are shallowly
embedded below: floats are modelled as rationals, in-place mutation of the
`ResourceState` argument is modelled by explicitly returning the new state,
and a raised exception is modelled by an `Except.error` result paired with
the state as it is at the moment of the raise.  The weighted `random`
sub-strategies (`ExperienceConsumeStrategy.RANDOM`, `ItemConsumeStrategy.RANDOM`)
resolve, before any arithmetic happens, to one of the deterministic
sub-strategies; the embedding therefore quantifies over the resolved
deterministic sub-strategies instead of modelling the random draw itself.
The two search loops of `Experience.to_level` are written with an explicit
fuel argument; the adequacy of the fuel supplied at the call site is proved
in the theorem section.
-/

deriving instance DecidableEq for Except

namespace CustomTeleport

/-- Pass strategy of a consumption node (`consumption.py`, class `PassStrategy`). -/
inductive PassStrategy where
  | passThrough
  | propagate
deriving DecidableEq, Repr

/-- Check strategy of a consumption node (`consumption.py`, class `CheckStrategy`). -/
inductive CheckStrategy where
  | strict
  | lenient
deriving DecidableEq, Repr

/-- Deterministic experience consume strategies (`ExperienceConsumeStrategy`
without `RANDOM`, which resolves to one of these two before any arithmetic). -/
inductive ExpStrategy where
  | points
  | level
deriving DecidableEq, Repr

/-- Deterministic item consume orders (`ItemConsumeStrategy` without `RANDOM`,
which resolves to one of these two before any arithmetic). -/
inductive ItemStrategy where
  | lowerFirst
  | higherFirst
deriving DecidableEq, Repr

/-- A command emitted by the engine.  In the source every command is a string
such as `f"xp add @s -{required_experience} points"`; commands are opaque to
the engine, so the embedding keeps the command kind and the interpolated
values instead of the rendered text. -/
inductive Command where
  | xpAddPoints (required : ℤ)
  | xpAddLevels (required : ℚ)
  | clear (itemId : String) (components : List (String × String)) (count : ℕ)
  | effectHunger (duration : ℤ) (amplifier : ℕ)
  | damage (amount : ℚ) (damageType : String)
deriving DecidableEq, Repr

/-- The insufficiency exception taxonomy of `consumption.py`
(`InsufficientExperienceError`, `InsufficientItemsError`,
`InsufficientHungerError`, `InsufficientHealthError`), each carrying the
`available` and `required` amounts of its constructor. -/
inductive CostError where
  | experience (available required : ℚ) (strategy : ExpStrategy)
  | items (available required : ℚ)
  | hunger (available required : ℚ)
  | health (available required : ℚ)
deriving DecidableEq, Repr

/-- `utils.Item`: count, id and components (component values kept as opaque
strings, the engine never interprets them). -/
structure Item where
  count : ℕ
  id : String
  components : List (String × String)
deriving DecidableEq, Repr, Inhabited

/-- `utils.Hunger` dataclass. -/
structure Hunger where
  level : ℚ
  saturation_level : ℚ
  exhaustion_level : ℚ
deriving DecidableEq, Repr, Inhabited

/-- `utils.Hunger.total` property getter. -/
def Hunger.total (h : Hunger) : ℚ :=
  h.level + h.saturation_level - h.exhaustion_level / 4

/-- `utils.Hunger.total` property setter: drains saturation before level on a
decrease, and overflows level above 20 into saturation on an increase. -/
def Hunger.setTotal (h : Hunger) (value : ℚ) : Hunger :=
  let subtract := value - h.total
  if subtract < 0 then
    let sat := h.saturation_level + subtract
    if sat < 0 then { h with level := h.level + sat, saturation_level := 0 }
    else { h with saturation_level := sat }
  else
    let lvl := h.level + subtract
    if lvl > 20 then
      { h with saturation_level := h.saturation_level + (lvl - 20), level := 20 }
    else { h with level := lvl }

/-- `utils.ResourceState`.  `experience` models `Experience.points`; the field
is rational because the level-mode deduction in `ExperienceCost.apply_cost`
subtracts a float from it. -/
structure ResourceState where
  items : List Item
  experience : ℚ
  hunger : Hunger
  health : ℚ
deriving DecidableEq, Repr, Inhabited

/-- `utils.Vec3`. -/
structure Vec3 where
  x : ℚ
  y : ℚ
  z : ℚ
deriving DecidableEq, Repr

/-- Modelled from the spec: the `Position` dataclass is imported by
`distance.py` but its definition is not under `src/`; spec section 3 gives it
as a `Vec3` coordinate, a rotation (yaw, pitch) and a dimension identifier
string.  Only `coordinate` and `dimension` are read by the distance code. -/
structure Position where
  coordinate : Vec3
  yaw : ℚ
  pitch : ℚ
  dimension : String
deriving DecidableEq, Repr

/-- `utils.limit_value`: scales then clamps, `max(min_val, min(max_val, val * scale))`. -/
def limit_value (val min_val max_val : ℚ) (scale : ℚ := 1) : ℚ :=
  max min_val (min max_val (val * scale))

/-- `Experience.from_level` restricted to the non-negative integer levels that
`to_level` and the level-mode experience deduction feed it.  The quadratic
float expressions of the source are exact integers at integer levels, so the
Nat divisions below are exact. -/
def fromLevel (level : ℕ) : ℕ :=
  if level ≤ 16 then level * level + 6 * level
  else if level ≤ 31 then (5 * level * level + 720 - 81 * level) / 2
  else (9 * level * level + 4440 - 325 * level) / 2

/-- `Experience.from_level` on arbitrary integer levels: the source takes the
absolute value, evaluates the curve, and restores the sign. -/
def fromLevelZ (level : ℤ) : ℤ :=
  if level < 0 then -(fromLevel level.natAbs : ℤ) else (fromLevel level.natAbs : ℤ)

/-- The doubling phase of `Experience.to_level` (`high` starts at 1 and is
doubled while `from_level(high) <= experience`), written with a fuel
argument; the fuel supplied by `toLevelQ` is proved adequate below. -/
def expandHighF : ℕ → ℚ → ℕ → ℕ
  | 0, _, high => high
  | fuel + 1, p, high =>
    if (fromLevel high : ℚ) ≤ p then expandHighF fuel p (2 * high) else high

/-- The binary-search phase of `Experience.to_level`: finds the largest level
whose point value does not exceed the target.  `high` is an integer because
the Python loop lets it reach `-1`; the fuel supplied by `toLevelQ` is
proved adequate below. -/
def bsearchF : ℕ → ℚ → ℕ → ℤ → ℕ → ℕ
  | 0, _, _, _, best => best
  | fuel + 1, p, low, high, best =>
    if (low : ℤ) ≤ high then
      let mid : ℕ := (low + high.toNat) / 2
      if (fromLevel mid : ℚ) ≤ p then bsearchF fuel p (mid + 1) high mid
      else bsearchF fuel p low ((mid : ℤ) - 1) best
    else best

/-- `Experience.to_level`: absolute value, doubling phase, binary search, then
sign restoration; returns the level and the leftover points. -/
def toLevelQ (e : ℚ) : ℤ × ℚ :=
  let p := |e|
  let high := expandHighF ((⌊p⌋ + 1).toNat + 1) p 1
  let best := bsearchF (high + 2) p 0 (high : ℤ) 0
  let rem := p - (fromLevel best : ℚ)
  if e < 0 then (-(best : ℤ), -rem) else ((best : ℤ), rem)

/-- Round-half-to-even on rationals, the tie behaviour of Python `round`. -/
def roundHalfEven (q : ℚ) : ℤ :=
  if q - ⌊q⌋ = 1 / 2 then (if Even ⌊q⌋ then ⌊q⌋ else ⌊q⌋ + 1) else round q

/-- Python `round(x, 7)` used by `HungerEffectCost.apply_cost`. -/
def roundTo7 (q : ℚ) : ℚ :=
  (roundHalfEven (q * 10000000) : ℚ) / 10000000

/-- Sorting of the price table in `calculate_combination`: ascending prices
for lower-first, descending for higher-first.  Python `sorted` is a stable
sort by the price key; `List.insertionSort` is stable, so it computes the
same list. -/
def sortItems (items : List (String × ℚ)) (reverseSort : Bool) : List (String × ℚ) :=
  if reverseSort then items.insertionSort (fun a b => b.2 ≤ a.2)
  else items.insertionSort (fun a b => a.2 ≤ b.2)

/-- Pass 1 of `calculate_combination` (greedy maximal take): walking the
sorted order, take `min(available_count, floor(remaining / price))` of each
positively priced item until `remaining ≤ 0`. -/
def pass1 (values : String → ℚ) (counts : String → ℕ) :
    List String → ℚ → (String → ℕ) → ((String → ℕ) × ℚ)
  | [], remaining, taken => (taken, remaining)
  | id :: rest, remaining, taken =>
    if remaining ≤ 0 then (taken, remaining)
    else if values id ≤ 0 then pass1 values counts rest remaining taken
    else
      let maxPossible : ℕ := min (counts id) (⌊remaining / values id⌋).toNat
      if 0 < maxPossible then
        pass1 values counts rest (remaining - (maxPossible : ℚ) * values id)
          (fun i => if i = id then maxPossible else taken i)
      else pass1 values counts rest remaining taken

/-- Pass 2 of `calculate_combination` (ceiling top-up): walking the reverse
order, take `min(ceil(remaining / price), available_count − already_taken)`
additional units until `remaining ≤ 0`. -/
def pass2 (values : String → ℚ) (counts : String → ℕ) :
    List String → ℚ → (String → ℕ) → ((String → ℕ) × ℚ)
  | [], remaining, taken => (taken, remaining)
  | id :: rest, remaining, taken =>
    if remaining ≤ 0 then (taken, remaining)
    else if values id ≤ 0 then pass2 values counts rest remaining taken
    else if (counts id : ℤ) - (taken id : ℤ) ≤ 0 then pass2 values counts rest remaining taken
    else
      let take : ℤ := min ⌈remaining / values id⌉ ((counts id : ℤ) - (taken id : ℤ))
      pass2 values counts rest (remaining - (take : ℚ) * values id)
        (fun i => if i = id then taken i + take.toNat else taken i)

/-- Price lookup in the `items_dict` of `calculate_combination`. -/
def priceOf (items_dict : List (String × ℚ)) (id : String) : ℚ :=
  (((items_dict.find? (fun it => decide (it.1 = id))).map Prod.snd).getD 0)

/-- `consumption.calculate_combination` with the random strategy already
resolved: exact-decimal greedy pass over the price-sorted order, then a
reverse-order ceiling top-up, then dropping zero-count entries (the result
keeps the sorted—dict-insertion—key order of the Python result dict). -/
def calculate_combination (items_dict : List (String × ℚ)) (id_counts : String → ℕ)
    (cost_value : ℚ) (strategy : ItemStrategy) : List (String × ℕ) :=
  let reverseSort : Bool := decide (strategy = ItemStrategy.higherFirst)
  let sorted_items := sortItems items_dict reverseSort
  let item_ids := sorted_items.map Prod.fst
  let values := priceOf items_dict
  let step1 := pass1 values id_counts item_ids cost_value (fun _ => 0)
  let taken :=
    if 0 < step1.2 then
      (pass2 values id_counts ((sortItems items_dict (!reverseSort)).map Prod.fst)
        step1.2 step1.1).1
    else step1.1
  item_ids.filterMap (fun id => if 0 < taken id then some (id, taken id) else none)

/-- `total_paid` in `ItemValueCost.apply_cost`: Σ count × price over the
combination result. -/
def totalPaid (values : String → ℚ) (consumed : List (String × ℕ)) : ℚ :=
  (consumed.map (fun e => (e.2 : ℚ) * values e.1)).sum

/-- The amplifier search loop of `calculate_hunger_effect`: for each amplifier
`e` from 255 down to 1 compute `duration = ceil(d / e)` and keep the pair
minimising the overshoot, preferring larger amplifiers on ties, breaking
early on a zero-error match.  `minError = none` models the initial `inf`. -/
def hungerEffectLoop (d : ℚ) : List ℕ → Option ℚ → ℤ → ℕ → ℤ × ℕ
  | [], _, bestS, bestE => (bestS, bestE)
  | e :: rest, minError, bestS, bestE =>
    let s : ℤ := ⌈d / (e : ℚ)⌉
    let err : ℚ := (s : ℚ) * (e : ℚ) - d
    let better : Bool := match minError with
      | none => true
      | some m => decide (err < m) || (decide (err = m) && decide (bestE < e))
    if better then
      if err = 0 then (s, e) else hungerEffectLoop d rest (some err) s e
    else hungerEffectLoop d rest minError bestS bestE

/-- `consumption.calculate_hunger_effect`: a minimal `(duration, amplifier)`
pair for a hunger effect draining `food_level − target_level` points, each
amplifier level draining 0.025 points per tick of duration. -/
def calculateHungerEffect (food target : ℚ) : ℤ × ℕ :=
  let delta := food - target
  if delta ≤ 0 then (0, 0)
  else hungerEffectLoop (delta / (25 / 1000)) ((List.range 255).map (fun i => 255 - i)) none 0 0

/-- The inner loop of `ItemValueCost.apply_cost` for one consumed entry: walk
the stacks of the given id in inventory order, take `min(remaining, count)`
from each, emit one `clear` command per touched stack, and drop a stack whose
count reaches zero. -/
def consumeId : List Item → String → ℕ → (List Item × List Command)
  | [], _, _ => ([], [])
  | it :: rest, tid, remaining =>
    if it.id = tid ∧ 0 < remaining then
      let take := min remaining it.count
      let next := consumeId rest tid (remaining - take)
      if it.count - take = 0 then
        (next.1, Command.clear it.id it.components take :: next.2)
      else
        ({ it with count := it.count - take } :: next.1,
          Command.clear it.id it.components take :: next.2)
    else
      let next := consumeId rest tid remaining
      (it :: next.1, next.2)

/-- The outer consumption loop of `ItemValueCost.apply_cost` over the
combination result, concatenating the per-entry commands in order. -/
def consumeAll : List Item → List (String × ℕ) → (List Item × List Command)
  | items, [] => (items, [])
  | items, (tid, cnt) :: rest =>
    let step := consumeId items tid cnt
    let next := consumeAll step.1 rest
    (next.1, step.2 ++ next.2)

/-- Consumption strategy configurations (`CONSUMPTION_TYPES`): the tagged
variants `experience`, `items`, `hunger`, `health` and `composite`, each with
its `pass_strategy`, `check_strategy` and type-specific parameters.  A
composite holds its child configurations, instantiated in order per
evaluation. -/
inductive CostCfg where
  | experience (pass : PassStrategy) (check : CheckStrategy) (rate : ℚ) (strategy : ExpStrategy)
  | items (pass : PassStrategy) (check : CheckStrategy) (rate : ℚ)
      (prices : List (String × ℚ)) (strategy : ItemStrategy)
  | hunger (pass : PassStrategy) (check : CheckStrategy) (rate : ℚ)
  | health (pass : PassStrategy) (check : CheckStrategy) (rate : ℚ) (damageType : String)
  | composite (pass : PassStrategy) (check : CheckStrategy) (costs : List CostCfg)
deriving Repr

/-- A leaf strategy deducts exactly one resource kind. -/
def CostCfg.isLeaf : CostCfg → Bool
  | .composite _ _ _ => false
  | _ => true

/-- The `check_strategy` field of a configuration. -/
def CostCfg.check : CostCfg → CheckStrategy
  | .experience _ c _ _ => c
  | .items _ c _ _ _ => c
  | .hunger _ c _ => c
  | .health _ c _ _ => c
  | .composite _ c _ => c

/-- `id_counts` in `ItemValueCost.apply_cost`: total inventory count per item
id, restricted to the ids of the price table. -/
def idCounts (prices : List (String × ℚ)) (items : List Item) : String → ℕ :=
  fun id =>
    if prices.any (fun p => decide (p.1 = id)) then
      ((items.filter (fun it => decide (it.id = id))).map Item.count).sum
    else 0

mutual

/-- `Cost.apply_cost` of every strategy, with Python's in-place mutation of
`resources` made explicit: the returned state is the argument as it is when
the call returns or raises (a raise is an `Except.error` carrying the
exception payload; the state at that moment is returned alongside). -/
def applyCost : CostCfg → ℚ → ResourceState →
    (Except CostError (ℚ × List Command)) × ResourceState
  | .experience pass check rate strategy, cost_value, st =>
    let required : ℚ := match strategy with
      | .points => (⌈cost_value * rate⌉ : ℚ)
      | .level => cost_value * rate
    let resourceExp : ℚ := match strategy with
      | .points => st.experience
      | .level =>
          let lv := toLevelQ st.experience
          (lv.1 : ℚ) + lv.2 / (fromLevelZ (lv.1 + 1) : ℚ)
    let commands : List Command := match strategy with
      | .points => [Command.xpAddPoints ⌈cost_value * rate⌉]
      | .level => [Command.xpAddLevels (cost_value * rate)]
    if resourceExp < required ∧ check = .strict then
      (.error (.experience resourceExp required strategy), st)
    else
      let v := if pass = .propagate then cost_value - resourceExp / rate else cost_value
      (.ok (v, commands), { st with experience := st.experience - required })
  | .items pass check rate prices strategy, cost_value, st =>
    let required := cost_value * rate
    let consumed := calculate_combination prices (idCounts prices st.items) required strategy
    let paid := totalPaid (priceOf prices) consumed
    if paid < required ∧ check = .strict then
      (.error (.items paid required), st)
    else
      let v := if pass = .propagate then cost_value - paid / rate else cost_value
      let applied := consumeAll st.items consumed
      (.ok (v, applied.2), { st with items := applied.1 })
  | .hunger pass check rate, cost_value, st =>
    let resourceHunger := max 0 st.hunger.total
    let targetHunger := max 0 (resourceHunger - cost_value * rate)
    if resourceHunger < targetHunger ∧ check = .strict then
      (.error (.hunger resourceHunger (resourceHunger - targetHunger)), st)
    else
      let v := if pass = .propagate then
        cost_value - (resourceHunger - targetHunger) / rate else cost_value
      let newHunger := st.hunger.setTotal (st.hunger.total - (resourceHunger - targetHunger))
      let effect := calculateHungerEffect resourceHunger targetHunger
      let commands : List Command :=
        if effect ≠ ((0 : ℤ), (0 : ℕ)) then [Command.effectHunger effect.1 effect.2] else []
      (.ok (roundTo7 v, commands), { st with hunger := newHunger })
  | .health pass check rate damageType, cost_value, st =>
    let resourceHealth := st.health
    let targetHealth := resourceHealth - cost_value * rate
    if resourceHealth < targetHealth ∧ check = .strict then
      (.error (.health resourceHealth (resourceHealth - targetHealth)), st)
    else
      let v := if pass = .propagate then
        cost_value - (resourceHealth - targetHealth) / rate else cost_value
      (.ok (v, [Command.damage (resourceHealth - targetHealth) damageType]),
        { st with health := targetHealth })
  | .composite pass check costs, cost_value, st =>
    match applyChildren check costs cost_value st with
    | (.ok (remaining, commands), st1) =>
      (.ok ((if pass = .propagate then remaining else cost_value), commands), st1)
    | (.error e, st1) => (.error e, st1)

/-- The evaluation loop of `CompositeCost.apply_cost`: children are evaluated
strictly in order, each receiving the `remaining` returned by its
predecessor; a child's insufficiency is re-raised under a strict composite
and skipped (keeping the pre-child `remaining`) under a lenient one; the
children's commands are concatenated in evaluation order. -/
def applyChildren : CheckStrategy → List CostCfg → ℚ → ResourceState →
    (Except CostError (ℚ × List Command)) × ResourceState
  | _, [], remaining, st => (.ok (remaining, []), st)
  | check, c :: rest, remaining, st =>
    match applyCost c remaining st with
    | (.ok (remaining1, cmds), st1) =>
      match applyChildren check rest remaining1 st1 with
      | (.ok (remaining2, cmds2), st2) => (.ok (remaining2, cmds ++ cmds2), st2)
      | (.error e, st2) => (.error e, st2)
    | (.error e, st1) =>
      if check = .strict then (.error e, st1)
      else applyChildren check rest remaining st1

end

/-- Total number of item units held by an inventory. -/
def totalCount (items : List Item) : ℕ :=
  (items.map Item.count).sum

/-- Whether an `Except` result is a success. -/
def isOk {ε α : Type} : Except ε α → Bool
  | .ok _ => true
  | .error _ => false

/-- `distance.DistanceCalculator`: clamping bounds, scale, per-dimension
surcharge table and the metric of the concrete subclass
(`coordinate_distance`). -/
structure DistanceCalculator where
  min_distance : ℚ
  max_distance : ℚ
  scale : ℚ
  cross_dimensional_cost : String → ℚ
  coordinate_distance : Vec3 → Vec3 → ℚ

/-- The cross-dimension surcharge computed by `DistanceCalculator.calculate`
into a local variable: the sum of the table entries of both endpoints when
the dimensions differ.  The source never uses the local afterwards, so the
computation is embedded as this separate function. -/
def DistanceCalculator.crossDimensionalSurcharge (c : DistanceCalculator)
    (from_position to_position : Position) : ℚ :=
  if from_position.dimension ≠ to_position.dimension then
    c.cross_dimensional_cost from_position.dimension
      + c.cross_dimensional_cost to_position.dimension
  else 0

/-- `DistanceCalculator.calculate`: the clamped, scaled coordinate metric;
the cross-dimension surcharge local is dead code and does not reach the
returned value. -/
def DistanceCalculator.calculate (c : DistanceCalculator)
    (from_position to_position : Position) : ℚ :=
  limit_value (c.coordinate_distance from_position.coordinate to_position.coordinate)
    c.min_distance c.max_distance c.scale

/-- `ManhattanDistance.coordinate_distance`. -/
def manhattanDistance (a b : Vec3) : ℚ :=
  |a.x - b.x| + |a.y - b.y| + |a.z - b.z|

/-- `ChebyshevDistance.coordinate_distance`. -/
def chebyshevDistance (a b : Vec3) : ℚ :=
  max |a.x - b.x| (max |a.y - b.y| |a.z - b.z|)

/-- `FixedDistance.coordinate_distance`: ignores the coordinates. -/
def fixedDistance (d : ℚ) : Vec3 → Vec3 → ℚ :=
  fun _ _ => d

/-- `LinearCost.compute`: `limit_value(base + distance * scale, min_cost, max_cost)`. -/
def linearCompute (base min_cost max_cost scale : ℚ) (distance : ℚ) : ℚ :=
  limit_value (base + distance * scale) min_cost max_cost

/-- The strategy closure built by `factory.create_cost_strategy`, over a
store of resource states standing for the Python heap: `deepcopy` allocates
a fresh cell holding a copy of the caller's state at index `r`, the
consumption tree mutates only that fresh cell, and only the command list of
`apply_cost` is returned.  The distance and cost calculators are abstracted
as the functions the factory closed over. -/
def calculateCommands (distanceCompute : Position → Position → ℚ) (costCompute : ℚ → ℚ)
    (consumption : CostCfg) (start stop : Position) (r : ℕ)
    (store : List ResourceState) :
    (Except CostError (List Command)) × List ResourceState :=
  let cost_value := costCompute (distanceCompute start stop)
  let res := applyCost consumption cost_value (store.getD r default)
  (Except.map Prod.snd res.1, store ++ [res.2])

/-- Fixture: a state holding 100 experience points. -/
def stExp100 : ResourceState := ⟨[], 100, ⟨20, 0, 0⟩, 20⟩

/-- Fixture: a state holding 5 experience points. -/
def stExp5 : ResourceState := ⟨[], 5, ⟨20, 0, 0⟩, 20⟩

/-- Fixture: a state with hunger total 5 and health 5. -/
def stH5 : ResourceState := ⟨[], 0, ⟨5, 0, 0⟩, 5⟩

/-- Fixture: a state holding a single item `A`. -/
def stItems1 : ResourceState := ⟨[⟨1, "A", []⟩], 0, ⟨20, 0, 0⟩, 20⟩

/-- Fixture: a state holding 4 experience points and 100 items `A`, used for
the composite threading scenarios. -/
def stComposite : ResourceState := ⟨[⟨100, "A", []⟩], 4, ⟨20, 0, 0⟩, 20⟩

/-- Fixture: a distance calculator clamping to `[0, 10]` whose metric is the
constant 100. -/
def dcFixture : DistanceCalculator := ⟨0, 10, 1, fun _ => 35, fixedDistance 100⟩

/-- Fixture: the origin position in the overworld. -/
def posA : Position := ⟨⟨0, 0, 0⟩, 0, 0, "overworld"⟩

/-- Fixture: a second position in the overworld. -/
def posB : Position := ⟨⟨30, 0, 40⟩, 0, 0, "overworld"⟩

/-- The level→points curve is strictly increasing from one level to the next. -/
theorem fromLevel_lt_succ (L : ℕ) : fromLevel L < fromLevel (L + 1) := by
  unfold fromLevel
  rcases Nat.lt_or_ge L 16 with h16 | h16
  · rw [if_pos (by omega), if_pos (by omega)]
    have hx : (L + 1) * (L + 1) = L * L + 2 * L + 1 := by ring
    rw [hx]
    omega
  rcases Nat.lt_or_ge L 31 with h31 | h31
  · rcases Nat.eq_or_lt_of_le h16 with h | h
    · subst_vars; decide
    · rw [if_neg (by omega), if_pos (by omega), if_neg (by omega), if_pos (by omega)]
      have h85 : 85 * L ≤ 5 * L * L := by
        have h5 : 85 ≤ 5 * L := by omega
        calc 85 * L ≤ (5 * L) * L := Nat.mul_le_mul_right L h5
        _ = 5 * L * L := by ring
      have hx : 5 * (L + 1) * (L + 1) = 5 * L * L + 10 * L + 5 := by ring
      rw [hx]
      generalize 5 * L * L = A at h85 ⊢
      omega
  rcases Nat.eq_or_lt_of_le h31 with h | h
  · subst_vars; decide
  · rw [if_neg (by omega), if_neg (by omega), if_neg (by omega), if_neg (by omega)]
    have h325 : 325 * L ≤ 9 * L * L + 4440 := by
      zify
      nlinarith [sq_nonneg ((3 : ℤ) * (L : ℤ) - 55)]
    have hx : 9 * (L + 1) * (L + 1) = 9 * L * L + 18 * L + 9 := by ring
    rw [hx]
    generalize 9 * L * L = A at h325 ⊢
    omega

/-- The level→points curve is strictly monotone. -/
theorem fromLevel_strictMono : StrictMono fromLevel :=
  strictMono_nat_of_lt_succ fromLevel_lt_succ

/-- With enough fuel, the doubling phase stops at a `high` whose point value
exceeds the target (so the fuel of `toLevelQ` never runs out). -/
theorem expandHighF_spec (p : ℚ) :
    ∀ (fuel high : ℕ), 0 < high → (⌊p⌋ + 1 - (fromLevel high : ℤ)).toNat < fuel →
    p < (fromLevel (expandHighF fuel p high) : ℚ) := by
  intro fuel
  induction fuel with
  | zero => intro high hpos hf; omega
  | succ n ih =>
    intro high hpos hf
    simp only [expandHighF]
    split
    case isTrue h =>
      apply ih (2 * high) (by omega)
      have h1 : (fromLevel high : ℤ) ≤ ⌊p⌋ := Int.le_floor.mpr (by exact_mod_cast h)
      have h2 : fromLevel high < fromLevel (2 * high) := fromLevel_strictMono (by omega)
      omega
    case isFalse h => exact lt_of_not_le h

/-- Correctness of the binary search with enough fuel: starting from a state
whose `best` is valid and whose window `[low, high]` together with
`[0, best]` covers every valid level, it returns the largest level whose
point value is at most `p`. -/
theorem bsearchF_spec (p : ℚ) :
    ∀ (fuel : ℕ) (low : ℕ) (high : ℤ) (best : ℕ),
    (high + 1 - low).toNat < fuel →
    (fromLevel best : ℚ) ≤ p → best ≤ low →
    (∀ j : ℕ, (fromLevel j : ℚ) ≤ p → j ≤ best ∨ ((low : ℤ) ≤ j ∧ (j : ℤ) ≤ high)) →
    (fromLevel (bsearchF fuel p low high best) : ℚ) ≤ p ∧
      ∀ j : ℕ, (fromLevel j : ℚ) ≤ p → j ≤ bsearchF fuel p low high best := by
  intro fuel
  induction fuel with
  | zero => intro low high best hf; omega
  | succ n ih =>
    intro low high best hf hb hbl hcover
    simp only [bsearchF]
    split
    case isTrue hlh =>
      have hlow : low ≤ high.toNat := by omega
      have hmlow : low ≤ (low + high.toNat) / 2 := by omega
      have hmhigh : (low + high.toNat) / 2 ≤ high.toNat := by omega
      split
      case isTrue hmid =>
        apply ih _ _ _ (by omega) hmid (by omega)
        intro j hj
        rcases hcover j hj with hjb | ⟨hjl, hjh⟩
        · exact Or.inl (by omega)
        · rcases le_or_lt j ((low + high.toNat) / 2) with hjm | hjm
          · exact Or.inl hjm
          · exact Or.inr ⟨by exact_mod_cast hjm, hjh⟩
      case isFalse hmid =>
        apply ih _ _ _ (by omega) hb hbl
        intro j hj
        rcases hcover j hj with hjb | ⟨hjl, hjh⟩
        · exact Or.inl hjb
        · have hjm : j < (low + high.toNat) / 2 := by
            by_contra hge
            push_neg at hge
            have hle : (fromLevel ((low + high.toNat) / 2) : ℚ) ≤ (fromLevel j : ℚ) :=
              Nat.cast_le.mpr (fromLevel_strictMono.le_iff_le.mpr hge)
            exact hmid (le_trans hle hj)
          exact Or.inr ⟨hjl, by omega⟩
    case isFalse hlh =>
      refine ⟨hb, fun j hj => ?_⟩
      rcases hcover j hj with hjb | ⟨hjl, hjh⟩
      · omega
      · omega

/-- Claim C7: for every non-negative integer `p`, `Experience(p).to_level()`
returns the largest level `L` with `from_level(L) ≤ p` together with the
remainder `p − from_level(L)`; that is,
`from_level(to_level(Experience(p)).level) ≤ p < from_level(to_level(Experience(p)).level + 1)`. -/
theorem toLevel_round_trip (p : ℕ) :
    ∃ L : ℕ, toLevelQ (p : ℚ) = ((L : ℤ), (p : ℚ) - (fromLevel L : ℚ)) ∧
      fromLevel L ≤ p ∧ p < fromLevel (L + 1) := by
  have habs : |(p : ℚ)| = (p : ℚ) := abs_of_nonneg (Nat.cast_nonneg p)
  have hnotneg : ¬((p : ℚ) < 0) := not_lt.mpr (Nat.cast_nonneg p)
  have hfloor : ⌊(p : ℚ)⌋ = (p : ℤ) := Int.floor_natCast p
  have hhigh : (p : ℚ) < (fromLevel (expandHighF ((⌊(p : ℚ)⌋ + 1).toNat + 1) (p : ℚ) 1) : ℚ) := by
    apply expandHighF_spec (p : ℚ) _ 1 Nat.one_pos
    have h7 : fromLevel 1 = 7 := by decide
    rw [h7, hfloor]
    omega
  have h0 : (fromLevel 0 : ℚ) ≤ (p : ℚ) := by
    have hz : fromLevel 0 = 0 := by decide
    rw [hz]
    exact_mod_cast Nat.zero_le p
  obtain ⟨hL, hmax⟩ :=
    bsearchF_spec (p : ℚ) (expandHighF ((⌊(p : ℚ)⌋ + 1).toNat + 1) (p : ℚ) 1 + 2) 0
      (expandHighF ((⌊(p : ℚ)⌋ + 1).toNat + 1) (p : ℚ) 1 : ℤ) 0 (by omega) h0 le_rfl (by
        intro j hj
        refine Or.inr ⟨by exact_mod_cast Nat.zero_le j, ?_⟩
        have hlt : fromLevel j < fromLevel (expandHighF ((⌊(p : ℚ)⌋ + 1).toNat + 1) (p : ℚ) 1) := by
          exact_mod_cast lt_of_le_of_lt hj hhigh
        have hjlt := fromLevel_strictMono.lt_iff_lt.mp hlt
        exact_mod_cast Nat.le_of_lt hjlt)
  refine ⟨bsearchF (expandHighF ((⌊(p : ℚ)⌋ + 1).toNat + 1) (p : ℚ) 1 + 2) (p : ℚ) 0
      (expandHighF ((⌊(p : ℚ)⌋ + 1).toNat + 1) (p : ℚ) 1 : ℤ) 0, ?_, ?_, ?_⟩
  · simp only [toLevelQ, habs, if_neg hnotneg]
  · exact_mod_cast hL
  · by_contra hcon
    push_neg at hcon
    have hc : (fromLevel (bsearchF (expandHighF ((⌊(p : ℚ)⌋ + 1).toNat + 1) (p : ℚ) 1 + 2)
        (p : ℚ) 0 (expandHighF ((⌊(p : ℚ)⌋ + 1).toNat + 1) (p : ℚ) 1 : ℤ) 0 + 1) : ℚ)
        ≤ (p : ℚ) := Nat.cast_le.mpr hcon
    have := hmax _ hc
    omega

/-- Assigning `total` always makes the derived total equal to the assigned
value: the setter clamps `level`, not the total. -/
theorem Hunger.total_setTotal (h : Hunger) (v : ℚ) : (h.setTotal v).total = v := by
  simp only [Hunger.setTotal, Hunger.total]
  split_ifs <;> dsimp only <;> ring

/-- Claim C8 counterexample: assigning the total `-1` to the zero hunger
state leaves `level = -1`, outside `[0, 20]`. -/
theorem hunger_setTotal_negative_counterexample :
    (Hunger.setTotal ⟨0, 0, 0⟩ (-1)).level = -1 ∧
      ¬(0 ≤ (Hunger.setTotal ⟨0, 0, 0⟩ (-1)).level) := by
  with_unfolding_all decide

/-- Claim C8 (amended): for a well-formed hunger state (`level` in `[0, 20]`,
non-negative saturation and exhaustion) and a non-negative assigned value,
`level` stays within `[0, 20]` after a `total` assignment (saturation absorbs
the remainder); `Hunger{level:20, saturation:0, exhaustion:0}` has total 20,
and setting its total to 15 yields `level = 15, saturation = 0`.  A negative
assigned value can push `level` below 0. -/
theorem hunger_total_level_invariant (h : Hunger) (v : ℚ)
    (hl0 : 0 ≤ h.level) (hl20 : h.level ≤ 20) (hs : 0 ≤ h.saturation_level)
    (he : 0 ≤ h.exhaustion_level) (hv : 0 ≤ v) :
    (0 ≤ (h.setTotal v).level ∧ (h.setTotal v).level ≤ 20) ∧
    (Hunger.total ⟨20, 0, 0⟩ = 20 ∧ Hunger.setTotal ⟨20, 0, 0⟩ 15 = ⟨15, 0, 0⟩) := by
  constructor
  · simp only [Hunger.setTotal, Hunger.total]
    split_ifs with h1 h2 h3 <;> dsimp only <;> constructor <;> linarith
  · constructor
    · with_unfolding_all decide
    · with_unfolding_all decide

/-- Witness for C8's amended invariant at the spec's concrete example. -/
theorem hunger_total_level_invariant_witness :
    ((0 : ℚ) ≤ (Hunger.mk 20 0 0).level ∧ (Hunger.mk 20 0 0).level ≤ 20 ∧
      (0 : ℚ) ≤ (Hunger.mk 20 0 0).saturation_level ∧
      (0 : ℚ) ≤ (Hunger.mk 20 0 0).exhaustion_level ∧ (0 : ℚ) ≤ 15) ∧
    (0 ≤ (Hunger.setTotal ⟨20, 0, 0⟩ 15).level ∧ (Hunger.setTotal ⟨20, 0, 0⟩ 15).level ≤ 20) :=
  ⟨⟨by norm_num, by norm_num, by norm_num, by norm_num, by norm_num⟩,
   (hunger_total_level_invariant ⟨20, 0, 0⟩ 15 (by norm_num) (by norm_num) (by norm_num)
      (by norm_num) (by norm_num)).1⟩

/-- Claim C6: on prices `{A:3, B:5}`, counts `{A:10, B:10}`, cost 13 with the
higher-first strategy, the combination algorithm returns exactly
`{B:2, A:1}`, whose total paid is exactly 13. -/
theorem calculate_combination_example :
    calculate_combination [("A", 3), ("B", 5)]
        (fun id => if id = "A" then 10 else if id = "B" then 10 else 0) 13
        ItemStrategy.higherFirst = [("B", 2), ("A", 1)] ∧
      totalPaid (priceOf [("A", 3), ("B", 5)]) [("B", 2), ("A", 1)] = 13 := by
  with_unfolding_all decide

/-- Rounding zero to seven decimal places gives zero. -/
theorem roundTo7_zero : roundTo7 0 = 0 := by
  with_unfolding_all decide

/-- Claim C2 counterexample: a propagate experience leaf holding 100 points
against a 10-point request (a fully covering pool) returns remaining `-90`,
not 0: the code subtracts `available/rate`, not the amount paid. -/
theorem experience_propagate_full_cover_counterexample :
    applyCost (.experience .propagate .strict 1 .points) 10 stExp100
      = (.ok (-90, [Command.xpAddPoints 10]), { stExp100 with experience := 90 }) ∧
    (-90 : ℚ) ≠ 0 ∧ (-90 : ℚ) < 0 := by
  with_unfolding_all decide

/-- Claim C2 (amended): with `pass_strategy = propagate`, the hunger leaf
returns exactly 0 whenever the pool covers the full request, and the health
leaf always returns 0 because it deducts `cost·rate` unconditionally; the
items leaf returns `cost − total_paid/rate` where `total_paid` is the value
actually consumed (the ceiling top-up can overshoot, making the remainder
negative); the experience leaf instead subtracts `available/rate` — the
whole pool converted back through the rate, not the amount actually paid —
so its remainder is negative whenever the pool strictly exceeds the
request. -/
theorem leaf_propagate_remainders (check : CheckStrategy) (rate v : ℚ) (st : ResourceState)
    (hrate : rate ≠ 0) :
    (∀ res cmds st1,
      applyCost (.experience .propagate check rate .points) v st = (.ok (res, cmds), st1) →
      res = v - st.experience / rate) ∧
    (∀ prices strat res cmds st1,
      applyCost (.items .propagate check rate prices strat) v st = (.ok (res, cmds), st1) →
      res = v - totalPaid (priceOf prices)
        (calculate_combination prices (idCounts prices st.items) (v * rate) strat) / rate) ∧
    (0 ≤ v * rate → v * rate ≤ max 0 st.hunger.total →
      ∀ res cmds st1, applyCost (.hunger .propagate check rate) v st = (.ok (res, cmds), st1) →
      res = 0) ∧
    (∀ damageType res cmds st1,
      applyCost (.health .propagate check rate damageType) v st = (.ok (res, cmds), st1) →
      res = 0) := by
  refine ⟨?_, ?_, ?_, ?_⟩
  · intro res cmds st1 heq
    simp only [applyCost] at heq
    split at heq
    · simp at heq
    · simp only [if_pos rfl, Prod.mk.injEq, Except.ok.injEq] at heq
      exact heq.1.1.symm
  · intro prices strat res cmds st1 heq
    simp only [applyCost] at heq
    split at heq
    · simp at heq
    · simp only [if_pos rfl, Prod.mk.injEq, Except.ok.injEq] at heq
      exact heq.1.1.symm
  · intro hv hcov res cmds st1 heq
    have htarget : max 0 (max 0 st.hunger.total - v * rate) = max 0 st.hunger.total - v * rate :=
      max_eq_right (by linarith)
    simp only [applyCost, htarget] at heq
    split at heq
    · simp at heq
    · simp only [if_pos rfl, Prod.mk.injEq, Except.ok.injEq] at heq
      have hres : res = roundTo7 (v - (max 0 st.hunger.total -
          (max 0 st.hunger.total - v * rate)) / rate) := heq.1.1.symm
      rw [sub_sub_cancel, mul_div_assoc, div_self hrate, mul_one, sub_self] at hres
      rw [hres, roundTo7_zero]
  · intro damageType res cmds st1 heq
    simp only [applyCost] at heq
    split at heq
    · simp at heq
    · simp only [if_pos rfl, Prod.mk.injEq, Except.ok.injEq] at heq
      have hres : res = v - (st.health - (st.health - v * rate)) / rate := heq.1.1.symm
      rw [sub_sub_cancel, mul_div_assoc, div_self hrate, mul_one, sub_self] at hres
      exact hres

/-- Witness for C2's amended law: the experience conjunct applied at rate 1,
cost 10 and a pool of 100 points. -/
theorem leaf_propagate_remainders_witness :
    (1 : ℚ) ≠ 0 ∧ (-90 : ℚ) = 10 - stExp100.experience / 1 :=
  ⟨by norm_num,
    (leaf_propagate_remainders .strict 1 10 stExp100 (by norm_num)).1 (-90)
      [Command.xpAddPoints 10] { stExp100 with experience := 90 }
      (by with_unfolding_all decide)⟩

/-- The total unit count is additive over a cons. -/
theorem totalCount_cons (it : Item) (l : List Item) :
    totalCount (it :: l) = it.count + totalCount l := by
  simp [totalCount]

/-- Consuming one combination entry never increases the total unit count. -/
theorem totalCount_consumeId (tid : String) :
    ∀ (items : List Item) (n : ℕ), totalCount (consumeId items tid n).1 ≤ totalCount items := by
  intro items
  induction items with
  | nil => intro n; simp [consumeId]
  | cons it rest ih =>
    intro n
    simp only [consumeId]
    split
    · split
      · dsimp only
        calc totalCount (consumeId rest tid (n - min n it.count)).1 ≤ totalCount rest := ih _
        _ ≤ totalCount (it :: rest) := by rw [totalCount_cons]; omega
      · dsimp only
        rw [totalCount_cons, totalCount_cons]
        have := ih (n - min n it.count)
        dsimp only
        omega
    · dsimp only
      rw [totalCount_cons, totalCount_cons]
      have := ih n
      omega

/-- Applying a combination result never increases the total unit count. -/
theorem totalCount_consumeAll :
    ∀ (consumed : List (String × ℕ)) (items : List Item),
    totalCount (consumeAll items consumed).1 ≤ totalCount items := by
  intro consumed
  induction consumed with
  | nil => intro items; simp [consumeAll]
  | cons e rest ih =>
    intro items
    obtain ⟨tid, cnt⟩ := e
    simp only [consumeAll]
    calc totalCount (consumeAll (consumeId items tid cnt).1 rest).1
        ≤ totalCount (consumeId items tid cnt).1 := ih _
    _ ≤ totalCount items := totalCount_consumeId tid items cnt

/-- Claim C3 counterexample: a lenient experience leaf holding 5 points
against a 10-point request deducts the full 10 points, driving the pool to
`-5` — more than what was available. -/
theorem experience_lenient_overdraft_counterexample :
    applyCost (.experience .passThrough .lenient 1 .points) 10 stExp5
      = (.ok (10, [Command.xpAddPoints 10]), { stExp5 with experience := -5 }) ∧
    ({ stExp5 with experience := (-5 : ℚ) }).experience < 0 ∧
    stExp5.experience = 5 := by
  with_unfolding_all decide

/-- Claim C3 (amended): with `check_strategy = lenient` no leaf ever raises;
the hunger leaf deducts exactly `min(available, requested)` — never more
than the pool held — and the items leaf only consumes units present in the
inventory; but the experience and health leaves deduct the full requested
amount even when it exceeds the pool, driving the resource negative. -/
theorem lenient_leaves_never_raise_and_bounds (v : ℚ) (st : ResourceState) :
    (∀ cfg : CostCfg, cfg.isLeaf = true → cfg.check = .lenient →
      isOk (applyCost cfg v st).1 = true) ∧
    (∀ pass rate, 0 ≤ v * rate →
      (applyCost (.hunger pass .lenient rate) v st).2.hunger.total
        = st.hunger.total - min (max 0 st.hunger.total) (v * rate)) ∧
    (∀ pass rate prices strat,
      totalCount (applyCost (.items pass .lenient rate prices strat) v st).2.items
        ≤ totalCount st.items) ∧
    (∀ pass rate,
      (applyCost (.experience pass .lenient rate .points) v st).2.experience
        = st.experience - (⌈v * rate⌉ : ℚ)) ∧
    (∀ pass rate damageType,
      (applyCost (.health pass .lenient rate damageType) v st).2.health
        = st.health - v * rate) := by
  refine ⟨?_, ?_, ?_, ?_, ?_⟩
  · intro cfg hleaf hcheck
    cases cfg with
    | experience p c r s =>
      simp only [CostCfg.check] at hcheck
      subst hcheck
      simp [applyCost, isOk]
    | items p c r prices strat =>
      simp only [CostCfg.check] at hcheck
      subst hcheck
      simp [applyCost, isOk]
    | hunger p c r =>
      simp only [CostCfg.check] at hcheck
      subst hcheck
      simp [applyCost, isOk]
    | health p c r d =>
      simp only [CostCfg.check] at hcheck
      subst hcheck
      simp [applyCost, isOk]
    | composite p c costs => simp [CostCfg.isLeaf] at hleaf
  · intro pass rate hv
    simp only [applyCost]
    rw [if_neg (by simp)]
    dsimp only
    rw [Hunger.total_setTotal]
    have hded : max 0 st.hunger.total - max 0 (max 0 st.hunger.total - v * rate)
        = min (max 0 st.hunger.total) (v * rate) := by
      rcases le_total (v * rate) (max 0 st.hunger.total) with h | h
      · rw [min_eq_right h, max_eq_right (sub_nonneg.mpr h)]
        ring
      · rw [min_eq_left h, max_eq_left (sub_nonpos.mpr h)]
        ring
    rw [hded]
  · intro pass rate prices strat
    simp only [applyCost]
    rw [if_neg (by simp)]
    dsimp only
    exact totalCount_consumeAll _ st.items
  · intro pass rate
    simp only [applyCost]
    rw [if_neg (by simp)]
  · intro pass rate damageType
    simp only [applyCost]
    rw [if_neg (by simp)]

/-- Witness for C3's amended law: the never-raises conjunct at the lenient
experience leaf of the counterexample scenario. -/
theorem lenient_leaves_never_raise_witness :
    CostCfg.isLeaf (.experience .passThrough .lenient 1 .points) = true ∧
    CostCfg.check (.experience .passThrough .lenient 1 .points) = .lenient ∧
    isOk (applyCost (.experience .passThrough .lenient 1 .points) 10 stExp5).1 = true :=
  ⟨rfl, rfl, (lenient_leaves_never_raise_and_bounds 10 stExp5).1 _ rfl rfl⟩

/-- The strict insufficiency checks of `HungerEffectCost` and `HealthCost`
are dead code: for a non-negative request `cost_value * rate` the compared
target never exceeds the current resource, so `strict` never raises. -/
theorem hunger_health_strict_check_dead (pass : PassStrategy) (rate v : ℚ)
    (st : ResourceState) (hv : 0 ≤ v * rate) :
    isOk (applyCost (.hunger pass .strict rate) v st).1 = true ∧
    ∀ damageType, isOk (applyCost (.health pass .strict rate damageType) v st).1 = true := by
  constructor
  · have hb : max 0 (max 0 st.hunger.total - v * rate) ≤ max 0 st.hunger.total :=
      max_le (le_max_left _ _) (sub_le_self _ hv)
    simp only [applyCost, isOk]
    split
    · rfl
    · next a h =>
      split at h
      · next hcon => exact absurd hcon.1 (by linarith)
      · simp at h
  · intro damageType
    have hb : st.health - v * rate ≤ st.health := sub_le_self _ hv
    simp only [applyCost, isOk]
    split
    · rfl
    · next a h =>
      split at h
      · next hcon => exact absurd hcon.1 (by linarith)
      · simp at h

/-- Claim C4 (code-bug evidence): a hunger pool of 5 and a health pool of 5
cannot cover a strict request of 10, yet neither leaf raises — the hunger
pool is silently drained to zero and the health pool is overdrawn to `-5`. -/
theorem hunger_health_strict_no_raise_at_shortfall :
    applyCost (.hunger .passThrough .strict 1) 10 stH5
      = (.ok (10, [Command.effectHunger 1 200]), { stH5 with hunger := ⟨0, 0, 0⟩ }) ∧
    applyCost (.health .passThrough .strict 1 "void") 10 stH5
      = (.ok (10, [Command.damage 10 "void"]), { stH5 with health := -5 }) := by
  with_unfolding_all decide

/-- Claim C5: if a strict leaf raises an insufficiency error, the passed-in
resource state is unchanged at the moment of the raise (the check happens
before any mutation by that leaf), and in the spec's concrete scenario the
`ItemValueCost` error carries `available = 3, required = 1000` for one item
priced 3 against a 1000-unit cost. -/
theorem strict_leaf_raise_preserves_state :
    (∀ (cfg : CostCfg) (v : ℚ) (st : ResourceState) (e : CostError) (st1 : ResourceState),
      cfg.isLeaf = true → applyCost cfg v st = (.error e, st1) → st1 = st) ∧
    applyCost (.items .passThrough .strict 1 [("A", 3)] .higherFirst) 1000 stItems1
      = (.error (.items 3 1000), stItems1) := by
  constructor
  · intro cfg v st e st1 hleaf heq
    cases cfg with
    | experience p c r s =>
      simp only [applyCost] at heq
      split at heq
      · simp only [Prod.mk.injEq] at heq
        exact heq.2.symm
      · simp at heq
    | items p c r prices strat =>
      simp only [applyCost] at heq
      split at heq
      · simp only [Prod.mk.injEq] at heq
        exact heq.2.symm
      · simp at heq
    | hunger p c r =>
      simp only [applyCost] at heq
      split at heq
      · simp only [Prod.mk.injEq] at heq
        exact heq.2.symm
      · simp at heq
    | health p c r d =>
      simp only [applyCost] at heq
      split at heq
      · simp only [Prod.mk.injEq] at heq
        exact heq.2.symm
      · simp at heq
    | composite p c costs => simp [CostCfg.isLeaf] at hleaf
  · set_option maxRecDepth 10000 in with_unfolding_all decide

/-- Witness for C5: the state-preservation law applied at the concrete
strict items failure of the spec's scenario. -/
theorem strict_leaf_raise_preserves_state_witness :
    CostCfg.isLeaf (.items .passThrough .strict 1 [("A", 3)] .higherFirst) = true ∧
    stItems1 = stItems1 :=
  ⟨rfl, strict_leaf_raise_preserves_state.1
    (.items .passThrough .strict 1 [("A", 3)] .higherFirst) 1000 stItems1
    (.items 3 1000) stItems1 rfl strict_leaf_raise_preserves_state.2⟩

/-- Claim C1 counterexample: in a composite whose own `pass_strategy` is
`pass_through`, the remaining value is still threaded from the experience
child to the items child — the items child is charged 6 (command
`clear @s A 6`), not the original 10 — so threading is not gated by the
composite's own pass strategy. -/
theorem composite_passthrough_still_threads :
    applyCost (.composite .passThrough .strict
        [.experience .propagate .lenient 1 .points,
         .items .propagate .lenient 1 [("A", 1)] .higherFirst]) 10 stComposite
      = (.ok (10, [Command.xpAddPoints 10, Command.clear "A" [] 6]),
         { stComposite with items := [⟨94, "A", []⟩], experience := -6 }) ∧
    Command.clear "A" [] 6 ≠ Command.clear "A" [] 10 := by
  with_unfolding_all decide

/-- Claim C1 (amended): a composite evaluates its children strictly in
configured order with their commands concatenated in evaluation order, and
the remaining value is always threaded forward from one child to the next —
each child's own `pass_strategy` decides whether its remainder shrinks; the
composite's own `pass_strategy` gates only whether the composite returns the
threaded remainder (`propagate`) or the original `cost_value`
(`pass_through`).  In a propagate composite of a propagate experience child
followed by an items child, the experience child paying 4 of a 10-unit cost
leaves the items child charged exactly 6. -/
theorem composite_order_and_threading :
    (∀ (check : CheckStrategy) (l1 l2 : List CostCfg) (v : ℚ) (st : ResourceState)
        (v1 : ℚ) (cmds1 : List Command) (st1 : ResourceState),
      applyChildren check l1 v st = (.ok (v1, cmds1), st1) →
      applyChildren check (l1 ++ l2) v st =
        (match applyChildren check l2 v1 st1 with
          | (.ok (v2, cmds2), st2) => (.ok (v2, cmds1 ++ cmds2), st2)
          | (.error e, st2) => (.error e, st2))) ∧
    (∀ (pass : PassStrategy) (check : CheckStrategy) (costs : List CostCfg) (v : ℚ)
        (st : ResourceState) (r : ℚ) (cmds : List Command) (st1 : ResourceState),
      applyChildren check costs v st = (.ok (r, cmds), st1) →
      applyCost (.composite pass check costs) v st =
        (.ok ((if pass = .propagate then r else v), cmds), st1)) ∧
    applyCost (.composite .propagate .strict
        [.experience .propagate .lenient 1 .points,
         .items .propagate .lenient 1 [("A", 1)] .higherFirst]) 10 stComposite
      = (.ok (0, [Command.xpAddPoints 10, Command.clear "A" [] 6]),
         { stComposite with items := [⟨94, "A", []⟩], experience := -6 }) := by
  refine ⟨?_, ?_, ?_⟩
  · intro check l1 l2
    induction l1 with
    | nil =>
      intro v st v1 cmds1 st1 heq
      simp only [applyChildren, Prod.mk.injEq, Except.ok.injEq] at heq
      obtain ⟨⟨hv1, hc1⟩, hst1⟩ := heq
      subst hv1
      subst hc1
      subst hst1
      simp only [List.nil_append]
      rcases hx : applyChildren check l2 v st with ⟨res, st2⟩
      cases res with
      | ok p =>
        obtain ⟨v2, c2⟩ := p
        simp
      | error e => simp
    | cons c l1 ih =>
      intro v st v1 cmds1 st1 heq
      simp only [List.cons_append, List.append_eq, applyChildren] at heq ⊢
      rcases h1 : applyCost c v st with ⟨res1, stm⟩
      rw [h1] at heq
      cases res1 with
      | ok p =>
        obtain ⟨va, ca⟩ := p
        dsimp only at heq ⊢
        rcases h2 : applyChildren check l1 va stm with ⟨res2, st2p⟩
        rw [h2] at heq
        cases res2 with
        | ok q =>
          obtain ⟨qv, qc⟩ := q
          dsimp only at heq
          simp only [Prod.mk.injEq, Except.ok.injEq] at heq
          obtain ⟨⟨hqv, hqc⟩, hst⟩ := heq
          subst hqv
          subst hqc
          subst hst
          rw [ih _ _ _ _ _ h2]
          rcases hx : applyChildren check l2 qv st2p with ⟨res3, st3⟩
          cases res3 with
          | ok r =>
            obtain ⟨rv, rc⟩ := r
            simp
          | error e => simp
        | error e =>
          dsimp only at heq
          simp at heq
      | error e =>
        dsimp only at heq ⊢
        by_cases hck : check = .strict
        · rw [if_pos hck] at heq
          simp at heq
        · rw [if_neg hck] at heq
          rw [if_neg hck]
          exact ih _ _ _ _ _ heq
  · intro pass check costs v st r cmds st1 heq
    simp only [applyCost, heq]
  · set_option maxRecDepth 10000 in with_unfolding_all decide

/-- Witness for C1's amended laws: the composite return-gating law applied
to a one-child pass-through composite (it returns the original 10 even
though the child's remainder is −90). -/
theorem composite_order_and_threading_witness :
    applyChildren .strict [.experience .propagate .lenient 1 .points] 10 stExp100
      = (.ok (-90, [Command.xpAddPoints 10]), { stExp100 with experience := 90 }) ∧
    applyCost (.composite .passThrough .strict [.experience .propagate .lenient 1 .points])
        10 stExp100
      = (.ok (10, [Command.xpAddPoints 10]), { stExp100 with experience := 90 }) :=
  ⟨by with_unfolding_all decide, by
    have h := composite_order_and_threading.2.1 .passThrough .strict
      [.experience .propagate .lenient 1 .points] 10 stExp100 (-90)
      [Command.xpAddPoints 10] { stExp100 with experience := 90 }
      (by with_unfolding_all decide)
    simpa using h⟩

/-- Claim C9: every distance calculator returns
`clamp(raw_coordinate_metric * scale, min_distance, max_distance)` — a value
within `[min_distance, max_distance]` whenever `min_distance ≤ max_distance`
— and the cross-dimension surcharge, though computed when the dimensions
differ, is not folded into the returned value, so the result does not depend
on the positions' dimension fields. -/
theorem distance_clamped_and_dimension_independent (c : DistanceCalculator)
    (p q : Position) (hminmax : c.min_distance ≤ c.max_distance) :
    c.calculate p q = limit_value (c.coordinate_distance p.coordinate q.coordinate)
        c.min_distance c.max_distance c.scale ∧
    (c.min_distance ≤ c.calculate p q ∧ c.calculate p q ≤ c.max_distance) ∧
    (∀ d1 d2 : String,
      c.calculate { p with dimension := d1 } { q with dimension := d2 }
        = c.calculate p q) := by
  refine ⟨rfl, ?_, fun d1 d2 => rfl⟩
  simp only [DistanceCalculator.calculate, limit_value]
  exact ⟨le_max_left _ _, max_le hminmax (min_le_left _ _)⟩

/-- Witness for C9 at a fixed-distance calculator clamped to `[0, 10]`,
including a cross-dimension pair of endpoints. -/
theorem distance_clamped_witness :
    dcFixture.min_distance ≤ dcFixture.max_distance ∧
    (dcFixture.min_distance ≤ dcFixture.calculate posA posB ∧
      dcFixture.calculate posA posB ≤ dcFixture.max_distance) ∧
    dcFixture.calculate { posA with dimension := "nether" } { posB with dimension := "the_end" }
      = dcFixture.calculate posA posB :=
  ⟨by with_unfolding_all decide,
   (distance_clamped_and_dimension_independent dcFixture posA posB
      (by with_unfolding_all decide)).2.1,
   (distance_clamped_and_dimension_independent dcFixture posA posB
      (by with_unfolding_all decide)).2.2 "nether" "the_end"⟩

/-- Claim C10: each invocation of a factory-built strategy applies the
consumption tree to a private deep copy of the caller's resource state — the
caller's cell in the store is unchanged afterwards, whether or not the
invocation ends in an insufficiency error — and a successful invocation
returns only the command list of the consumption tree. -/
theorem factory_clones_resource_state
    (dc : Position → Position → ℚ) (cc : ℚ → ℚ) (cons : CostCfg)
    (start stop : Position) (r : ℕ) (store : List ResourceState)
    (hr : r < store.length) :
    (calculateCommands dc cc cons start stop r store).2.get? r = store.get? r ∧
    ∀ cmds, (calculateCommands dc cc cons start stop r store).1 = .ok cmds →
      ∃ rem st1, applyCost cons (cc (dc start stop)) (store.getD r default)
        = (.ok (rem, cmds), st1) := by
  constructor
  · dsimp only [calculateCommands]
    simp only [List.get?_eq_getElem?]
    exact List.getElem?_append_left hr
  · intro cmds hok
    dsimp only [calculateCommands] at hok
    rcases hx : applyCost cons (cc (dc start stop)) (store.getD r default) with ⟨res, st1⟩
    rw [hx] at hok
    cases res with
    | ok pr =>
      obtain ⟨rem, cs⟩ := pr
      simp only [Except.map, Except.ok.injEq] at hok
      subst hok
      exact ⟨rem, st1, rfl⟩
    | error e =>
      simp only [Except.map] at hok
      simp at hok

/-- Witness for C10: a one-cell store is unchanged at the caller's index
after an invocation of a factory-built strategy. -/
theorem factory_clones_resource_state_witness :
    0 < [stExp100].length ∧
    (calculateCommands (fun _ _ => 100) (fun d => d)
        (.experience .propagate .strict 1 .points) posA posB 0 [stExp100]).2.get? 0
      = [stExp100].get? 0 :=
  ⟨by decide,
   (factory_clones_resource_state (fun _ _ => 100) (fun d => d)
      (.experience .propagate .strict 1 .points) posA posB 0 [stExp100] (by decide)).1⟩

end CustomTeleport
